import Mathlib

/-!
Verification of the Morphism Composition Engine backing the
`MorphismComposer` simulator (src/src/components/simulators/MorphismComposer.tsx).

The engine state is the component state: the fixed morphism catalog
(`morphisms`, seeded from `initialMorphisms` and never written again),
the ordered selection of morphism ids (`selected`), the derived composite
(`composition`), the reported error message (`error`) and the animation
flag (`isNewComposition`).

`handleSelectMorphism` is modelled as a function from state and clicked id
to `Option` state: the TypeScript handler dereferences catalog lookups with
a non-null assertion (`morphisms.find(...)!`), so a lookup miss is a crash,
modelled as `none`.  All React `setX` calls of one handler invocation read
the pre-call snapshot and take effect together, so each handler is a pure
state transformer.
-/

namespace MorphismComposer

structure Morphism where
  id : String
  label : String
  source : String
  target : String
deriving DecidableEq, Repr

/-- The fixed seed catalog `initialMorphisms` of the component. -/
def initialMorphisms : List Morphism :=
  [ { id := "f", label := "f", source := "A", target := "B" },
    { id := "g", label := "g", source := "B", target := "C" },
    { id := "h", label := "h", source := "C", target := "D" },
    { id := "k", label := "k", source := "A", target := "C" } ]

/-- The component state relevant to the engine. -/
structure ComposerState where
  morphisms : List Morphism
  selected : List String
  composition : Option Morphism
  error : Option String
  isNewComposition : Bool
deriving DecidableEq, Repr

/-- Initial state of the component: catalog seeded, nothing selected. -/
def initialState : ComposerState :=
  { morphisms := initialMorphisms
    selected := []
    composition := none
    error := none
    isNewComposition := false }

/-- `canCompose(m1, m2)`: `m1.target === m2.source`. -/
def canCompose (m1 m2 : Morphism) : Bool :=
  m1.target == m2.source

/-- `compose(m1, m2)`: `null` unless `canCompose(m1, m2)`, else the derived
morphism with id and label second-then-first joined by `∘`, source of `m1`,
target of `m2`. -/
def compose (m1 m2 : Morphism) : Option Morphism :=
  if canCompose m1 m2 then
    some { id := m2.id ++ "∘" ++ m1.id
           label := m2.label ++ "∘" ++ m1.label
           source := m1.source
           target := m2.target }
  else none

/-- The error message built in the non-composable branch of
`handleSelectMorphism`. -/
def cannotComposeMsg (m1 m2 : Morphism) : String :=
  "Cannot compose: " ++ m1.label ++ " and " ++ m2.label ++
    " are not composable (target ≠ source)"

/-- `handleSelectMorphism(morphismId)`.  The handler first clears `error`
and `isNewComposition` (those up-front resets are folded into each branch
below: every branch states its final `error` and `isNewComposition`
explicitly), then branches: an already-selected id is deselected; an empty
selection starts a singleton; a singleton tries `compose(m1, m2)` first
and `compose(m2, m1)` second; otherwise (two selected, new id) the
selection restarts at the clicked id.  The no-compose branch of the
source sets only the error and the selection — it never calls
`setComposition` — so that branch leaves `composition` untouched.
`none` models the crash of the non-null assertion on a failed catalog
lookup. -/
def handleSelectMorphism (s : ComposerState) (morphismId : String) : Option ComposerState :=
  if s.selected.contains morphismId then
    some { s with selected := s.selected.filter (fun id => id != morphismId)
                  composition := none, error := none, isNewComposition := false }
  else if s.selected.length == 0 then
    some { s with selected := [morphismId], composition := none
                  error := none, isNewComposition := false }
  else if s.selected.length == 1 then
    match s.morphisms.find? (fun m => m.id == s.selected.headD ""),
          s.morphisms.find? (fun m => m.id == morphismId) with
    | some m1, some m2 =>
      match compose m1 m2 with
      | some comp =>
          some { s with selected := [s.selected.headD "", morphismId]
                        composition := some comp
                        error := none, isNewComposition := true }
      | none =>
        match compose m2 m1 with
        | some comp =>
            some { s with selected := [morphismId, s.selected.headD ""]
                          composition := some comp
                          error := none, isNewComposition := true }
        | none =>
            some { s with selected := [morphismId]
                          error := some (cannotComposeMsg m1 m2)
                          isNewComposition := false }
    | _, _ => none
  else
    some { s with selected := [morphismId], composition := none
                  error := none, isNewComposition := false }

/-- `clearSelection()`: unconditional reset of selection, composite, error
and the animation flag. -/
def clearSelection (s : ComposerState) : ComposerState :=
  { s with selected := []
           composition := none
           error := none
           isNewComposition := false }

/-- `id` is the id of some catalog morphism. -/
def isCatalogId (id : String) : Bool :=
  initialMorphisms.any (fun m => m.id == id)

/-- States reachable from the initial state by `handleSelectMorphism` calls
on catalog ids and `clearSelection` calls. -/
inductive Reachable : ComposerState → Prop where
  | init : Reachable initialState
  | select (s : ComposerState) (id : String) (s' : ComposerState) :
      Reachable s → isCatalogId id = true →
      handleSelectMorphism s id = some s' → Reachable s'
  | clear (s : ComposerState) :
      Reachable s → Reachable (clearSelection s)

/-- Catalog lookup by id, as the handler performs it on the seed catalog. -/
def findMorphism (id : String) : Option Morphism :=
  initialMorphisms.find? (fun m => m.id == id)

/-- The inductive invariant of the engine: the catalog is the seed catalog,
and the selection is empty with no composite, a singleton with no
composite, or a pair of distinct ids whose catalog morphisms compose in the
stored order, the composite being exactly that composition. -/
def Inv (s : ComposerState) : Prop :=
  s.morphisms = initialMorphisms ∧
  ((s.selected.length ≤ 1 ∧ s.composition = none) ∨
   (∃ a b m1 m2, s.selected = [a, b] ∧ a ≠ b ∧
      findMorphism a = some m1 ∧ findMorphism b = some m2 ∧
      canCompose m1 m2 = true ∧ s.composition = compose m1 m2))

/-! ### Basic lemmas about `compose` -/

theorem compose_eq_some_canCompose (m1 m2 c : Morphism)
    (h : compose m1 m2 = some c) : canCompose m1 m2 = true := by
  unfold compose at h
  split at h
  · assumption
  · exact absurd h (by simp)

theorem compose_isSome_of_canCompose (m1 m2 : Morphism)
    (h : canCompose m1 m2 = true) : (compose m1 m2).isSome = true := by
  unfold compose
  rw [h]
  simp

theorem compose_eq_none_of_not_canCompose (m1 m2 : Morphism)
    (h : canCompose m1 m2 = false) : compose m1 m2 = none := by
  unfold compose
  rw [h]
  simp

/-! ### The inductive invariant is preserved -/

theorem inv_initialState : Inv initialState := by
  constructor
  · rfl
  · left
    exact ⟨by simp [initialState], rfl⟩

theorem inv_clearSelection (s : ComposerState) (h : Inv s) :
    Inv (clearSelection s) := by
  refine ⟨h.1, Or.inl ⟨by simp [clearSelection], rfl⟩⟩

theorem inv_handleSelectMorphism (s : ComposerState) (id : String)
    (s' : ComposerState) (hInv : Inv s)
    (h : handleSelectMorphism s id = some s') : Inv s' := by
  obtain ⟨hmor, hsel⟩ := hInv
  unfold handleSelectMorphism at h
  split at h
  · -- deselect branch: id is already selected
    rename_i hmem
    injection h with h
    subst h
    refine ⟨hmor, ?_⟩
    rcases hsel with ⟨hlen, _⟩ | ⟨a, b, m1, m2, hab, hne, hfa, hfb, hcc, hcomp⟩
    · exact Or.inl ⟨le_trans (List.length_filter_le _ _) hlen, rfl⟩
    · rw [hab] at hmem
      simp only [List.contains_cons, List.contains_nil, Bool.or_false,
        Bool.or_eq_true, beq_iff_eq] at hmem
      rcases hmem with hmem | hmem
      · subst hmem
        refine Or.inl ⟨?_, rfl⟩
        rw [hab]
        have hb : (b != id) = true := bne_iff_ne.mpr (Ne.symm hne)
        simp [List.filter, hb]
      · subst hmem
        refine Or.inl ⟨?_, rfl⟩
        rw [hab]
        have ha : (a != id) = true := bne_iff_ne.mpr hne
        simp [List.filter, ha]
  · split at h
    · -- empty selection: start a singleton
      injection h with h
      subst h
      exact ⟨hmor, Or.inl ⟨by simp, rfl⟩⟩
    · split at h
      · -- singleton selection: try to compose
        rename_i hmem h0 h1
        have hx : ∃ x, s.selected = [x] := by
          rw [← List.length_eq_one]
          simpa using h1
        obtain ⟨x, hx⟩ := hx
        have hxid : x ≠ id := by
          intro hcontra
          rw [hx, hcontra] at hmem
          simp at hmem
        rw [hx] at h
        simp only [List.headD_cons] at h
        split at h
        · rename_i m1 m2 hfa hfb
          split at h
          · -- compose (m1, m2) succeeded
            rename_i comp hcmp
            injection h with h
            subst h
            refine ⟨hmor, Or.inr ⟨x, id, m1, m2, rfl, hxid, ?_, ?_, ?_, ?_⟩⟩
            · rw [findMorphism, ← hmor]; exact hfa
            · rw [findMorphism, ← hmor]; exact hfb
            · exact compose_eq_some_canCompose m1 m2 comp hcmp
            · simp [hcmp]
          · split at h
            · -- compose (m2, m1) succeeded
              rename_i comp hcmp
              injection h with h
              subst h
              refine ⟨hmor, Or.inr ⟨id, x, m2, m1, rfl, Ne.symm hxid, ?_, ?_, ?_, ?_⟩⟩
              · rw [findMorphism, ← hmor]; exact hfb
              · rw [findMorphism, ← hmor]; exact hfa
              · exact compose_eq_some_canCompose m2 m1 comp hcmp
              · simp [hcmp]
            · -- neither order composes: error branch, composite untouched
              injection h with h
              subst h
              refine ⟨hmor, Or.inl ⟨by simp, ?_⟩⟩
              rcases hsel with ⟨-, hnone⟩ | ⟨a', b', m1', m2', hab, -⟩
              · exact hnone
              · rw [hx] at hab
                exact absurd hab (by simp)
        · -- a catalog lookup failed: the handler crashed
          exact absurd h (by simp)
      · -- two selected, new id: restart at the clicked id
        injection h with h
        subst h
        exact ⟨hmor, Or.inl ⟨by simp, rfl⟩⟩

theorem reachable_inv (s : ComposerState) (h : Reachable s) : Inv s := by
  induction h with
  | init => exact inv_initialState
  | select s id s' _ _ hstep ih => exact inv_handleSelectMorphism s id s' ih hstep
  | clear s _ ih => exact inv_clearSelection s ih

/-! ### Concrete catalog morphisms and concrete runs -/

/-- The catalog morphism `f : A → B`. -/
def morF : Morphism := { id := "f", label := "f", source := "A", target := "B" }

/-- The catalog morphism `g : B → C`. -/
def morG : Morphism := { id := "g", label := "g", source := "B", target := "C" }

/-- The catalog morphism `h : C → D`. -/
def morH : Morphism := { id := "h", label := "h", source := "C", target := "D" }

/-- The composite of `f` then `g`, as `compose` derives it. -/
def gComposeF : Morphism :=
  { id := "g∘f", label := "g∘f", source := "A", target := "C" }

/-- The state after clicking `f` from the initial state. -/
def stateF : ComposerState := { initialState with selected := ["f"] }

/-- The state after clicking `f` then `g` from the initial state:
selection `[f, g]`, composite `g∘f`. -/
def stateFG : ComposerState :=
  { initialState with selected := ["f", "g"]
                      composition := some gComposeF
                      isNewComposition := true }

/-- The state with sole selection `h` over the seed catalog. -/
def stateH : ComposerState := { initialState with selected := ["h"] }

theorem reachable_stateF : Reachable stateF :=
  Reachable.select initialState "f" stateF Reachable.init (by decide) (by decide)

theorem reachable_stateFG : Reachable stateFG :=
  Reachable.select stateF "g" stateFG reachable_stateF (by decide) (by decide)

/-- Clicking a second, distinct id from a singleton selection reduces to
the two composition attempts: `compose a b` first, then `compose b a`,
then the error branch, which leaves the composite field untouched. -/
theorem select_second (s : ComposerState) (a b : Morphism)
    (hsel : s.selected = [a.id]) (hne : a.id ≠ b.id)
    (hfa : s.morphisms.find? (fun m => m.id == a.id) = some a)
    (hfb : s.morphisms.find? (fun m => m.id == b.id) = some b) :
    handleSelectMorphism s b.id =
      some (match compose a b with
        | some comp =>
            { s with selected := [a.id, b.id], composition := some comp
                     error := none, isNewComposition := true }
        | none =>
          match compose b a with
          | some comp =>
              { s with selected := [b.id, a.id], composition := some comp
                       error := none, isNewComposition := true }
          | none =>
              { s with selected := [b.id]
                       error := some (cannotComposeMsg a b)
                       isNewComposition := false }) := by
  have hc : ([a.id].contains b.id) = false := by
    simp only [List.contains_cons, List.contains_nil, Bool.or_false]
    exact beq_eq_false_iff_ne.mpr (Ne.symm hne)
  unfold handleSelectMorphism
  rw [hsel, hc]
  simp only [Bool.false_eq_true, if_false, List.length_cons, List.length_nil,
    List.headD_cons, Nat.reduceBEq, Nat.reduceAdd]
  rw [hfa, hfb]
  simp only [if_true]
  cases compose a b with
  | some comp => rfl
  | none =>
    cases compose b a with
    | some comp => rfl
    | none => rfl

/-- The state with sole selection `g` over the seed catalog. -/
def stateG : ComposerState := { initialState with selected := ["g"] }

/-- A composite of two catalog morphisms is never itself a catalog entry:
the catalog is the fixed 4-element seed list and every derived morphism
differs from all of its entries. -/
theorem compose_not_in_catalog (m1 m2 c : Morphism)
    (h1 : m1 ∈ initialMorphisms) (h2 : m2 ∈ initialMorphisms)
    (hc : compose m1 m2 = some c) : c ∉ initialMorphisms := by
  fin_cases h1 <;> fin_cases h2 <;> simp [compose, canCompose] at hc
  all_goals (subst hc; decide)

/-! ### Claim theorems -/

/-- C1 (counterexample): the clicks `f`, `g` reach a 2-selection state;
clicking the already-selected catalog id `f` there yields selection
`[g]`, not `[f]` as the claim states — the membership check precedes the
2-selection reset in `handleSelectMorphism`. -/
theorem c1_counterexample :
    ∃ s2, (handleSelectMorphism initialState "f").bind
        (fun s1 => handleSelectMorphism s1 "g") = some s2 ∧
      Reachable s2 ∧ s2.selected.length = 2 ∧ isCatalogId "f" = true ∧
      ∃ s3, handleSelectMorphism s2 "f" = some s3 ∧ s3.selected ≠ ["f"] :=
  ⟨stateFG, by decide, reachable_stateFG, by decide, by decide,
    stateG, by decide, by decide⟩

/-- C1 (amended): from a state whose selection holds exactly the two
distinct ids `a, b`, clicking an id `z` distinct from both yields sole
selection `[z]` with composite and error absent; clicking `a` (resp. `b`)
instead removes just that id, yielding sole selection `[b]` (resp. `[a]`)
with composite and error absent. -/
theorem c1_amended (s : ComposerState) (a b z : String)
    (hsel : s.selected = [a, b]) (hne : a ≠ b) :
    ((z ≠ a ∧ z ≠ b) →
      ∃ s', handleSelectMorphism s z = some s' ∧
        s'.selected = [z] ∧ s'.composition = none ∧ s'.error = none) ∧
    (∃ s', handleSelectMorphism s a = some s' ∧
      s'.selected = [b] ∧ s'.composition = none ∧ s'.error = none) ∧
    (∃ s', handleSelectMorphism s b = some s' ∧
      s'.selected = [a] ∧ s'.composition = none ∧ s'.error = none) := by
  refine ⟨?_, ?_, ?_⟩
  · rintro ⟨hza, hzb⟩
    have hc : ([a, b].contains z) = false := by
      simp only [List.contains_cons, List.contains_nil, Bool.or_false,
        Bool.or_eq_false_iff]
      exact ⟨beq_eq_false_iff_ne.mpr hza, beq_eq_false_iff_ne.mpr hzb⟩
    have heq : handleSelectMorphism s z =
        some { s with selected := [z], composition := none, error := none, isNewComposition := false } := by
      unfold handleSelectMorphism
      rw [hsel, hc]
      simp
    exact ⟨_, heq, rfl, rfl, rfl⟩
  · have hb : (b != a) = true := bne_iff_ne.mpr (Ne.symm hne)
    have heq : handleSelectMorphism s a =
        some { s with selected := [b], composition := none, error := none, isNewComposition := false } := by
      unfold handleSelectMorphism
      rw [hsel]
      simp [List.filter, hb]
    exact ⟨_, heq, rfl, rfl, rfl⟩
  · have ha : (a != b) = true := bne_iff_ne.mpr hne
    have heq : handleSelectMorphism s b =
        some { s with selected := [a], composition := none, error := none, isNewComposition := false } := by
      unfold handleSelectMorphism
      rw [hsel]
      simp [List.filter, ha]
    exact ⟨_, heq, rfl, rfl, rfl⟩

/-- Witness for the amended C1 at the reachable 2-selection state
`[f, g]`: clicking the fresh id `h` restarts at `[h]`; clicking the
already-selected `f` leaves `[g]`. -/
theorem c1_witness :
    (∃ s', handleSelectMorphism stateFG "h" = some s' ∧
      s'.selected = ["h"] ∧ s'.composition = none ∧ s'.error = none) ∧
    (∃ s', handleSelectMorphism stateFG "f" = some s' ∧
      s'.selected = ["g"] ∧ s'.composition = none ∧ s'.error = none) := by
  have h := c1_amended stateFG "f" "g" "h" (by decide) (by decide)
  exact ⟨h.1 ⟨by decide, by decide⟩, h.2.1⟩

/-- C4: in every reachable state, a composite is present exactly when the
selection holds two ids whose catalog morphisms compose in at least one
order. -/
theorem c4_composite_iff (s : ComposerState) (h : Reachable s) :
    s.composition.isSome = true ↔
      ∃ a b m1 m2, s.selected = [a, b] ∧
        findMorphism a = some m1 ∧ findMorphism b = some m2 ∧
        (canCompose m1 m2 = true ∨ canCompose m2 m1 = true) := by
  obtain ⟨-, hsel⟩ := reachable_inv s h
  constructor
  · intro hc
    rcases hsel with ⟨-, hnone⟩ | ⟨a, b, m1, m2, hab, -, hfa, hfb, hcc, -⟩
    · rw [hnone] at hc
      exact absurd hc (by simp)
    · exact ⟨a, b, m1, m2, hab, hfa, hfb, Or.inl hcc⟩
  · rintro ⟨a, b, m1, m2, hab, -, -, -⟩
    rcases hsel with ⟨hlen, -⟩ | ⟨a', b', m1', m2', hab', -, -, -, hcc', hcomp'⟩
    · rw [hab] at hlen
      simp at hlen
    · rw [hcomp']
      exact compose_isSome_of_canCompose m1' m2' hcc'

/-- Witness for C4 at the reachable state `[f, g]`, whose composite is
present. -/
theorem c4_witness : stateFG.composition.isSome = true :=
  (c4_composite_iff stateFG reachable_stateFG).mpr
    ⟨"f", "g", morF, morG, by decide, by decide, by decide,
      Or.inl (by decide)⟩

/-- C9: every reachable state holds at most 2 selected ids, and no
`handleSelectMorphism` or `clearSelection` call ever produces a longer
selection from a state within that bound. -/
theorem c9_selection_bound :
    (∀ s, Reachable s → s.selected.length ≤ 2) ∧
    (∀ s id s', s.selected.length ≤ 2 →
      handleSelectMorphism s id = some s' → s'.selected.length ≤ 2) ∧
    (∀ s, (clearSelection s).selected.length ≤ 2) := by
  refine ⟨?_, ?_, ?_⟩
  · intro s h
    obtain ⟨-, hsel⟩ := reachable_inv s h
    rcases hsel with ⟨hlen, -⟩ | ⟨a, b, m1, m2, hab, -⟩
    · exact le_trans hlen (by norm_num)
    · rw [hab]
      simp
  · intro s id s' hlen h
    unfold handleSelectMorphism at h
    split at h
    · injection h with h
      subst h
      exact le_trans (List.length_filter_le _ _) hlen
    · split at h
      · injection h with h
        subst h
        simp
      · split at h
        · split at h
          · split at h
            · injection h with h
              subst h
              simp
            · split at h
              · injection h with h
                subst h
                simp
              · injection h with h
                subst h
                simp
          · exact absurd h (by simp)
        · injection h with h
          subst h
          simp
  · intro s
    simp [clearSelection]

/-- Witness for C9 at the reachable state `[f, g]` and at the result of
clicking `h` there. -/
theorem c9_witness :
    stateFG.selected.length ≤ 2 ∧ stateH.selected.length ≤ 2 :=
  ⟨c9_selection_bound.1 stateFG reachable_stateFG,
   c9_selection_bound.2.1 stateFG "h" stateH (by decide) (by decide)⟩

/-- C10: neither handler ever changes the morphism catalog, every
reachable state carries exactly the seed catalog, and a present composite
is never a catalog entry (so composites are never selectable). -/
theorem c10_catalog_frame :
    (∀ s id s', handleSelectMorphism s id = some s' →
      s'.morphisms = s.morphisms) ∧
    (∀ s, (clearSelection s).morphisms = s.morphisms) ∧
    (∀ s, Reachable s → s.morphisms = initialMorphisms) ∧
    (∀ s c, Reachable s → s.composition = some c → c ∉ s.morphisms) := by
  refine ⟨?_, ?_, ?_, ?_⟩
  · intro s id s' h
    unfold handleSelectMorphism at h
    split at h
    · injection h with h
      subst h
      rfl
    · split at h
      · injection h with h
        subst h
        rfl
      · split at h
        · split at h
          · split at h
            · injection h with h
              subst h
              rfl
            · split at h
              · injection h with h
                subst h
                rfl
              · injection h with h
                subst h
                rfl
          · exact absurd h (by simp)
        · injection h with h
          subst h
          rfl
  · intro s
    rfl
  · intro s h
    exact (reachable_inv s h).1
  · intro s c h hcomp
    obtain ⟨hmor, hsel⟩ := reachable_inv s h
    rcases hsel with ⟨-, hnone⟩ | ⟨a, b, m1, m2, -, -, hfa, hfb, -, hc2⟩
    · rw [hnone] at hcomp
      exact absurd hcomp (by simp)
    · rw [hc2] at hcomp
      rw [hmor]
      have hfa' : initialMorphisms.find? (fun m => m.id == a) = some m1 := hfa
      have hfb' : initialMorphisms.find? (fun m => m.id == b) = some m2 := hfb
      exact compose_not_in_catalog m1 m2 c
        (List.mem_of_find?_eq_some hfa') (List.mem_of_find?_eq_some hfb') hcomp

/-- Witness for C10: clicking `h` from the reachable state `[f, g]`
leaves the catalog unchanged, the catalog of `[f, g]` is the seed
catalog, and its composite `g∘f` is not a catalog entry. -/
theorem c10_witness :
    stateH.morphisms = stateFG.morphisms ∧
    stateFG.morphisms = initialMorphisms ∧
    gComposeF ∉ stateFG.morphisms :=
  ⟨c10_catalog_frame.1 stateFG "h" stateH (by decide),
   c10_catalog_frame.2.2.1 stateFG reachable_stateFG,
   c10_catalog_frame.2.2.2 stateFG gComposeF reachable_stateFG (by decide)⟩

/-- C5: for composable `m1 : A → B`, `m2 : B → C` (that is,
`target(m1) = source(m2)`), `compose(m1, m2)` is the morphism with id and
label obtained by joining the second then the first with `∘`, source of
`m1` and target of `m2`; when `target(m1) ≠ source(m2)` it is absent. -/
theorem c5_compose_spec (m1 m2 : Morphism) :
    (m1.target = m2.source →
      compose m1 m2 = some { id := m2.id ++ "∘" ++ m1.id
                             label := m2.label ++ "∘" ++ m1.label
                             source := m1.source
                             target := m2.target }) ∧
    (m1.target ≠ m2.source → compose m1 m2 = none) := by
  constructor
  · intro h
    unfold compose canCompose
    simp [h]
  · intro h
    unfold compose canCompose
    simp [h]

/-- Witness for C5 at the catalog morphisms `f, g` (composable) and
`f, h` (not composable). -/
theorem c5_witness :
    compose morF morG = some { id := morG.id ++ "∘" ++ morF.id
                               label := morG.label ++ "∘" ++ morF.label
                               source := morF.source
                               target := morG.target } ∧
    compose morF morH = none :=
  ⟨(c5_compose_spec morF morG).1 (by decide),
   (c5_compose_spec morF morH).2 (by decide)⟩

/-- C6: `canCompose(m1, m2)` is true exactly when
`target(m1) = source(m2)`; in particular the wrong order never succeeds
even when the reverse order does. -/
theorem c6_canCompose_spec (m1 m2 : Morphism) :
    (canCompose m1 m2 = true ↔ m1.target = m2.source) ∧
    (m1.target ≠ m2.source → canCompose m2 m1 = true →
      canCompose m1 m2 = false) := by
  constructor
  · unfold canCompose
    exact beq_iff_eq
  · intro h _
    unfold canCompose
    simp [h]

/-- Witness for C6 at `g, f`: the reverse order `f, g` composes but
`g, f` does not. -/
theorem c6_witness : canCompose morG morF = false :=
  (c6_canCompose_spec morG morF).2 (by decide) (by decide)

/-- C7: from any state whose selection is exactly `[x]`, selecting `x`
again empties the selection and clears composite and error. -/
theorem c7_toggle (s : ComposerState) (x : String) (hsel : s.selected = [x]) :
    ∃ s', handleSelectMorphism s x = some s' ∧
      s'.selected = [] ∧ s'.composition = none ∧ s'.error = none := by
  refine ⟨clearSelection s, ?_, rfl, rfl, rfl⟩
  unfold handleSelectMorphism clearSelection
  rw [hsel]
  simp [List.filter]

/-- Witness for C7 at the reachable state with sole selection `f`. -/
theorem c7_witness :
    ∃ s', handleSelectMorphism stateF "f" = some s' ∧
      s'.selected = [] ∧ s'.composition = none ∧ s'.error = none :=
  c7_toggle stateF "f" rfl

/-- C2: from a singleton selection `[a]`, clicking a distinct catalog id
`b` tries `compose(a, b)` first (valid iff `target(a) = source(b)`) — so
when that order is valid the composite is `compose(a, b)` and the
selection `[a, b]`, regardless of whether the reverse is also valid; only
when it is invalid is `compose(b, a)` tried, yielding selection `[b, a]`;
hence when exactly one order is valid the same composite `compose(a, b)`
results from either click order. -/
theorem c2_compose_order (s : ComposerState) (a b : Morphism)
    (hsel : s.selected = [a.id]) (hne : a.id ≠ b.id)
    (hfa : s.morphisms.find? (fun m => m.id == a.id) = some a)
    (hfb : s.morphisms.find? (fun m => m.id == b.id) = some b) :
    (canCompose a b = true →
      ∃ s', handleSelectMorphism s b.id = some s' ∧
        s'.composition = compose a b ∧ s'.selected = [a.id, b.id]) ∧
    (canCompose a b = false → canCompose b a = true →
      ∃ s', handleSelectMorphism s b.id = some s' ∧
        s'.composition = compose b a ∧ s'.selected = [b.id, a.id]) ∧
    (∀ t : ComposerState, canCompose a b = true → canCompose b a = false →
      t.selected = [b.id] →
      t.morphisms.find? (fun m => m.id == a.id) = some a →
      t.morphisms.find? (fun m => m.id == b.id) = some b →
      ∃ t', handleSelectMorphism t a.id = some t' ∧
        t'.composition = compose a b ∧ t'.selected = [a.id, b.id]) := by
  refine ⟨?_, ?_, ?_⟩
  · intro hab
    have h := select_second s a b hsel hne hfa hfb
    obtain ⟨c, hc⟩ :=
      Option.isSome_iff_exists.mp (compose_isSome_of_canCompose a b hab)
    rw [hc] at h
    exact ⟨_, h, by rw [hc], rfl⟩
  · intro hab hba
    have h := select_second s a b hsel hne hfa hfb
    rw [compose_eq_none_of_not_canCompose a b hab] at h
    obtain ⟨c, hc⟩ :=
      Option.isSome_iff_exists.mp (compose_isSome_of_canCompose b a hba)
    rw [hc] at h
    exact ⟨_, h, by rw [hc], rfl⟩
  · intro t hab hba hselt hfat hfbt
    have h := select_second t b a hselt (Ne.symm hne) hfbt hfat
    rw [compose_eq_none_of_not_canCompose b a hba] at h
    obtain ⟨c, hc⟩ :=
      Option.isSome_iff_exists.mp (compose_isSome_of_canCompose a b hab)
    rw [hc] at h
    exact ⟨_, h, by rw [hc], rfl⟩

/-- Witness for C2: from the sole selection `f`, clicking `g` composes
in the order `f` then `g`. -/
theorem c2_witness :
    ∃ s', handleSelectMorphism stateF morG.id = some s' ∧
      s'.composition = compose morF morG ∧
      s'.selected = [morF.id, morG.id] :=
  (c2_compose_order stateF morF morG (by decide) (by decide) (by decide)
    (by decide)).1 (by decide)

/-- C3: from a reachable singleton selection `[a]` (every singleton
selection the running program exhibits carries no composite), clicking a
distinct catalog id `b` with neither order composable yields sole
selection `[b]`, no composite, and a reported error value naming both
labels.  The failure branch leaves the composite field untouched, so its
absence comes from the invariant of reachable singleton states. -/
theorem c3_not_composable_error (s : ComposerState) (a b : Morphism)
    (hreach : Reachable s)
    (hsel : s.selected = [a.id]) (hne : a.id ≠ b.id)
    (hfa : s.morphisms.find? (fun m => m.id == a.id) = some a)
    (hfb : s.morphisms.find? (fun m => m.id == b.id) = some b)
    (h1 : canCompose a b = false) (h2 : canCompose b a = false) :
    ∃ s', handleSelectMorphism s b.id = some s' ∧
      s'.selected = [b.id] ∧ s'.composition = none ∧
      s'.error = some (cannotComposeMsg a b) := by
  have hnone : s.composition = none := by
    obtain ⟨-, hinv⟩ := reachable_inv s hreach
    rcases hinv with ⟨-, hn⟩ | ⟨a', b', m1', m2', hab, -⟩
    · exact hn
    · rw [hsel] at hab
      exact absurd hab (by simp)
  have h := select_second s a b hsel hne hfa hfb
  rw [compose_eq_none_of_not_canCompose a b h1,
      compose_eq_none_of_not_canCompose b a h2] at h
  exact ⟨_, h, rfl, hnone, rfl⟩

/-- Witness for C3: from the reachable state with sole selection `f`,
clicking `h` fails in both orders and reports the error naming `f` and
`h`. -/
theorem c3_witness :
    ∃ s', handleSelectMorphism stateF morH.id = some s' ∧
      s'.selected = [morH.id] ∧ s'.composition = none ∧
      s'.error = some (cannotComposeMsg morF morH) :=
  c3_not_composable_error stateF morF morH reachable_stateF (by decide)
    (by decide) (by decide) (by decide) (by decide) (by decide)

/-- C8: `clearSelection` always yields empty selection, no composite and
no error, and it is idempotent. -/
theorem c8_clear_idempotent (s : ComposerState) :
    (clearSelection s).selected = [] ∧
    (clearSelection s).composition = none ∧
    (clearSelection s).error = none ∧
    clearSelection (clearSelection s) = clearSelection s :=
  ⟨rfl, rfl, rfl, rfl⟩

end MorphismComposer
